import Mathlib

/-!
Verification of the elearn retrieval core: the chunker (`api/services/pdf.go`),
the cosine-similarity scorer (`api/services/embeddings.go`), and the chat-ask
retrieval pipeline (`ChatAsk` and the ingestion loop of `UploadPDF` in
`api/handlers/handlers.go`).  Text is modelled as `List Char` (Go operates on
runes), float64 arithmetic as real arithmetic.
-/

namespace Elearn

/-! ## Chunker (`api/services/pdf.go`) -/

def ChunkSize : Nat := 1000

def ChunkOverlap : Nat := 200

/-- Go's `unicode.IsSpace`, the predicate `strings.TrimSpace` applies to each
rune: the Unicode White_Space code points — the Latin-1 ones ('\t', '\n',
'\x0b', '\x0c', '\r', ' ', U+0085, U+00A0) plus U+1680, U+2000–U+200A,
U+2028, U+2029, U+202F, U+205F and U+3000. -/
def isSpace (c : Char) : Bool :=
  c = ' ' || c = '\t' || c = '\n' || c = '\x0b' || c = '\x0c' || c = '\r' ||
  c = '\x85' || c = '\xa0' || c.toNat = 0x1680 ||
  (0x2000 ≤ c.toNat && c.toNat ≤ 0x200A) || c.toNat = 0x2028 ||
  c.toNat = 0x2029 || c.toNat = 0x202F || c.toNat = 0x205F ||
  c.toNat = 0x3000

/-- `strings.TrimSpace`: drop leading and trailing whitespace runes. -/
def trimSpace (l : List Char) : List Char :=
  ((l.dropWhile isSpace).reverse.dropWhile isSpace).reverse

/-- The loop of `ChunkText`: window `[start, start+ChunkSize)` clamped to the
text, trimmed, emitted when non-empty; the start advances by
`ChunkSize - ChunkOverlap`. -/
def chunkLoop (runes : List Char) (start : Nat) : List (List Char) :=
  if _h : start < runes.length then
    if (trimSpace ((runes.drop start).take ChunkSize)).length > 0 then
      trimSpace ((runes.drop start).take ChunkSize) ::
        chunkLoop runes (start + (ChunkSize - ChunkOverlap))
    else
      chunkLoop runes (start + (ChunkSize - ChunkOverlap))
  else []
termination_by runes.length - start
decreasing_by all_goals (simp only [ChunkSize, ChunkOverlap]; omega)

/-- `ChunkText`: splits text into overlapping chunks. -/
def ChunkText (text : List Char) : List (List Char) :=
  if text.length = 0 then [] else chunkLoop text 0

/-! ### Chunker lemmas -/

theorem dropWhile_eq_self_of (p : Char → Bool) (l : List Char)
    (h : ∀ c ∈ l, p c = false) : l.dropWhile p = l := by
  cases l with
  | nil => rfl
  | cons c cs => simp [List.dropWhile_cons, h c (by simp)]

theorem trimSpace_eq_self (l : List Char) (h : ∀ c ∈ l, isSpace c = false) :
    trimSpace l = l := by
  unfold trimSpace
  rw [dropWhile_eq_self_of _ _ h]
  rw [dropWhile_eq_self_of _ _ (fun c hc => h c (by simpa using hc))]
  simp

theorem trimSpace_length_le (l : List Char) : (trimSpace l).length ≤ l.length := by
  unfold trimSpace
  calc (((l.dropWhile isSpace).reverse.dropWhile isSpace).reverse).length
      = ((l.dropWhile isSpace).reverse.dropWhile isSpace).length := by simp
    _ ≤ (l.dropWhile isSpace).reverse.length :=
        List.Sublist.length_le (List.dropWhile_sublist _)
    _ = (l.dropWhile isSpace).length := by simp
    _ ≤ l.length := List.Sublist.length_le (List.dropWhile_sublist _)

/-- One step of the loop on whitespace-free text: the window is emitted untrimmed. -/
theorem chunkLoop_step_nospace (runes : List Char) (start : Nat)
    (h : ∀ c ∈ runes, isSpace c = false) (hlt : start < runes.length) :
    chunkLoop runes start =
      (runes.drop start).take ChunkSize :: chunkLoop runes (start + (ChunkSize - ChunkOverlap)) := by
  rw [chunkLoop]
  have hsub : ∀ c ∈ (runes.drop start).take ChunkSize, isSpace c = false := by
    intro c hc
    exact h c (List.mem_of_mem_drop (List.mem_of_mem_take hc))
  rw [dif_pos hlt]
  rw [trimSpace_eq_self _ hsub]
  have hpos : 0 < ((runes.drop start).take ChunkSize).length := by
    simp only [List.length_take, List.length_drop, ChunkSize]
    omega
  rw [if_pos hpos]

theorem chunkLoop_stop (runes : List Char) (start : Nat)
    (h : ¬ start < runes.length) : chunkLoop runes start = [] := by
  rw [chunkLoop, dif_neg h]

/-- Number of chunks on whitespace-free text: one window per loop iteration,
`ceil((len - start) / 800)` of them. -/
theorem chunkLoop_length_nospace (runes : List Char)
    (h : ∀ c ∈ runes, isSpace c = false) (start : Nat) :
    (chunkLoop runes start).length = (runes.length - start + 799) / 800 := by
  by_cases hlt : start < runes.length
  · rw [chunkLoop_step_nospace runes start h hlt]
    have ih := chunkLoop_length_nospace runes h (start + (ChunkSize - ChunkOverlap))
    rw [List.length_cons, ih]
    simp only [ChunkSize, ChunkOverlap]
    omega
  · rw [chunkLoop_stop runes start hlt]
    simp only [List.length_nil]
    omega
termination_by runes.length - start
decreasing_by simp only [ChunkSize, ChunkOverlap]; omega

theorem ChunkText_length_nospace (text : List Char)
    (h : ∀ c ∈ text, isSpace c = false) :
    (ChunkText text).length = (text.length + 799) / 800 := by
  unfold ChunkText
  by_cases h0 : text.length = 0
  · rw [if_pos h0, h0]
    decide
  · rw [if_neg h0, chunkLoop_length_nospace text h 0]
    omega

/-- `chunkLoop_step_nospace` with the configuration constants evaluated. -/
theorem chunkLoop_step_nospace_num (runes : List Char) (start : Nat)
    (h : ∀ c ∈ runes, isSpace c = false) (hlt : start < runes.length) :
    chunkLoop runes start =
      (runes.drop start).take 1000 :: chunkLoop runes (start + 800) := by
  rw [chunkLoop_step_nospace runes start h hlt]
  norm_num [ChunkSize, ChunkOverlap]

theorem replicate_nospace (n : Nat) :
    ∀ c ∈ List.replicate n 'a', isSpace c = false := by
  intro c hc
  rw [List.eq_of_mem_replicate hc]
  decide

/-- Concrete 2500-character scenario: the four windows `[0,1000)`, `[800,1800)`,
`[1600,2500)`, `[2400,2500)` are emitted. -/
theorem ChunkText_repl2500 :
    ChunkText (List.replicate 2500 'a') =
      [List.replicate 1000 'a', List.replicate 1000 'a',
       List.replicate 900 'a', List.replicate 100 'a'] := by
  have hns := replicate_nospace 2500
  have hlen : (List.replicate 2500 'a').length = 2500 := List.length_replicate 2500 'a'
  unfold ChunkText
  rw [if_neg (by rw [hlen]; norm_num)]
  rw [chunkLoop_step_nospace_num _ 0 hns (by rw [hlen]; norm_num)]
  rw [chunkLoop_step_nospace_num _ (0 + 800) hns (by rw [hlen]; norm_num)]
  rw [chunkLoop_step_nospace_num _ (0 + 800 + 800) hns (by rw [hlen]; norm_num)]
  rw [chunkLoop_step_nospace_num _ (0 + 800 + 800 + 800) hns (by rw [hlen]; norm_num)]
  rw [chunkLoop_stop _ (0 + 800 + 800 + 800 + 800) (by rw [hlen]; norm_num)]
  simp only [List.drop_replicate, List.take_replicate]
  norm_num

/-- Every chunk the loop emits is non-empty and at most `ChunkSize` characters. -/
theorem chunkLoop_mem_bounds (runes : List Char) (start : Nat) (c : List Char)
    (hc : c ∈ chunkLoop runes start) : 0 < c.length ∧ c.length ≤ ChunkSize := by
  rw [chunkLoop] at hc
  split at hc
  · split at hc
    · rcases List.mem_cons.mp hc with h1 | h1
      · subst h1
        refine ⟨by omega, ?_⟩
        calc (trimSpace ((runes.drop start).take ChunkSize)).length
            ≤ ((runes.drop start).take ChunkSize).length := trimSpace_length_le _
          _ ≤ ChunkSize := by simp
      · exact chunkLoop_mem_bounds runes _ c h1
    · exact chunkLoop_mem_bounds runes _ c hc
  · simp at hc
termination_by runes.length - start
decreasing_by all_goals (simp only [ChunkSize, ChunkOverlap]; omega)

/-- Behaviour on short texts: a single loop iteration emits the whole trimmed
text (or nothing if it trims to empty), provided the text is no longer than the
step `ChunkSize - ChunkOverlap`, so that the second iteration is not reached. -/
theorem ChunkText_short (text : List Char) (h0 : 0 < text.length)
    (hle : text.length ≤ ChunkSize - ChunkOverlap) :
    ChunkText text =
      if (trimSpace text).length = 0 then [] else [trimSpace text] := by
  have hstep : ChunkSize - ChunkOverlap = 800 := by norm_num [ChunkSize, ChunkOverlap]
  rw [hstep] at hle
  unfold ChunkText
  rw [if_neg (by omega)]
  rw [chunkLoop, dif_pos h0]
  have htake : (text.drop 0).take ChunkSize = text := by
    rw [List.drop_zero]
    exact List.take_of_length_le (by simp only [ChunkSize]; omega)
  rw [htake]
  rw [chunkLoop_stop text (0 + (ChunkSize - ChunkOverlap)) (by rw [hstep]; omega)]
  by_cases hz : (trimSpace text).length = 0
  · rw [if_neg (by omega), if_pos hz]
  · rw [if_pos (by omega), if_neg hz]

/-- Claim C2 (amended): for whitespace-free text the number of chunks is
`ceil(len / (chunkSize - overlap))` = `(len + 799) / 800`, and the
2500-character scenario yields four chunks, drawn from the character ranges
`[0,1000)`, `[800,1800)`, `[1600,2500)` and `[2400,2500)`. -/
theorem claim_C2_amended (text : List Char) (h : ∀ c ∈ text, isSpace c = false) :
    (ChunkText text).length = (text.length + 799) / 800 ∧
    ChunkText (List.replicate 2500 'a') =
      [List.replicate 1000 'a', List.replicate 1000 'a',
       List.replicate 900 'a', List.replicate 100 'a'] :=
  ⟨ChunkText_length_nospace text h, ChunkText_repl2500⟩

/-- Claim C2 witness: the amended claim instantiated at the 2500-character text. -/
theorem claim_C2_amended_witness :
    (ChunkText (List.replicate 2500 'a')).length =
      ((List.replicate 2500 'a').length + 799) / 800 ∧
    ChunkText (List.replicate 2500 'a') =
      [List.replicate 1000 'a', List.replicate 1000 'a',
       List.replicate 900 'a', List.replicate 100 'a'] :=
  claim_C2_amended (List.replicate 2500 'a') (replicate_nospace 2500)

/-- Claim C2 counterexample: a 2500-character text yields 4 chunks, not the 3
the claim states ([2400,2500) is a fourth, redundant window). -/
theorem claim_C2_counterexample :
    (ChunkText (List.replicate 2500 'a')).length ≠ 3 := by
  rw [ChunkText_length_nospace _ (replicate_nospace 2500), List.length_replicate]
  norm_num

/-- Claim C3 (amended): a non-empty text of at most `chunkSize - overlap = 800`
characters produces exactly one chunk, the whole input trimmed — or none if the
trimmed text is empty.  (Between 801 and 999 characters a second, overlapping
window is also emitted, so the claim's bound `< chunkSize` is too weak.) -/
theorem claim_C3_amended (text : List Char) (h0 : 0 < text.length)
    (hle : text.length ≤ ChunkSize - ChunkOverlap) :
    ChunkText text =
      if (trimSpace text).length = 0 then [] else [trimSpace text] :=
  ChunkText_short text h0 hle

/-- Claim C3 witness: the amended claim instantiated at the one-character text. -/
theorem claim_C3_amended_witness :
    ChunkText ['a'] =
      if (trimSpace ['a']).length = 0 then [] else [trimSpace ['a']] :=
  claim_C3_amended ['a'] (by decide) (by decide)

/-- Claim C3 counterexample: a 900-character whitespace-free text is shorter
than `chunkSize = 1000` yet produces two chunks, not one. -/
theorem claim_C3_counterexample :
    (ChunkText (List.replicate 900 'a')).length = 2 := by
  rw [ChunkText_length_nospace _ (replicate_nospace 900), List.length_replicate]

/-- Claim C7: chunking the empty string yields the empty sequence, and every
chunk produced is non-empty and at most `chunkSize` characters long. -/
theorem claim_C7 :
    ChunkText [] = [] ∧
    ∀ (text c : List Char), c ∈ ChunkText text →
      c ≠ [] ∧ c.length ≤ ChunkSize := by
  refine ⟨rfl, ?_⟩
  intro text c hc
  unfold ChunkText at hc
  split at hc
  · simp at hc
  · have := chunkLoop_mem_bounds text 0 c hc
    exact ⟨List.ne_nil_of_length_pos this.1, this.2⟩

/-- Claim C7 witness: the bound instantiated at a concrete one-chunk text. -/
theorem claim_C7_witness :
    ChunkText [] = [] ∧
    (['a'] : List Char) ≠ [] ∧ (['a'] : List Char).length ≤ ChunkSize := by
  have hmem : (['a'] : List Char) ∈ ChunkText ['a'] := by
    rw [ChunkText_short ['a'] (by decide) (by decide)]
    decide
  exact ⟨claim_C7.1, claim_C7.2 ['a'] ['a'] hmem⟩

/-! ## Cosine similarity (`api/services/embeddings.go`)

float64 arithmetic is modelled by real arithmetic.  The loop accumulates
`dotProduct`, `normA` and `normB`; it is only reached when the lengths agree,
so `zipWith` is a faithful translation. -/

def dotProduct (a b : List ℝ) : ℝ := (List.zipWith (fun x y => x * y) a b).sum

/-- `normA`/`normB` in the source: the sum of squares (the squared Euclidean
norm) of a vector. -/
def normSq (a : List ℝ) : ℝ := dotProduct a a

/-- `CosineSimilarity`: length mismatch and zero-norm guards return `0.0`
before any division (so the longer vector is never truncated); otherwise the
dot product divided by the product of Euclidean norms. -/
noncomputable def CosineSimilarity (a b : List ℝ) : ℝ :=
  if a.length ≠ b.length then 0
  else if normSq a = 0 ∨ normSq b = 0 then 0
  else dotProduct a b / (Real.sqrt (normSq a) * Real.sqrt (normSq b))

theorem dotProduct_comm (a b : List ℝ) : dotProduct a b = dotProduct b a := by
  unfold dotProduct
  rw [List.zipWith_comm_of_comm (fun x y => x * y) mul_comm]

theorem zipWith_mul_self (a : List ℝ) :
    List.zipWith (fun x y => x * y) a a = a.map (fun x => x * x) := by
  induction a with
  | nil => rfl
  | cons x xs ih => simp [List.zipWith_cons_cons, ih]

theorem normSq_nonneg (a : List ℝ) : 0 ≤ normSq a := by
  unfold normSq dotProduct
  rw [zipWith_mul_self]
  exact List.sum_nonneg (by
    intro x hx
    rcases List.mem_map.mp hx with ⟨y, _, rfl⟩
    exact mul_self_nonneg y)

theorem normSq_pos (a : List ℝ) (h : ∃ x ∈ a, x ≠ 0) : 0 < normSq a := by
  rcases h with ⟨x, hx, hx0⟩
  unfold normSq dotProduct
  rw [zipWith_mul_self]
  have h1 : (0 : ℝ) < x * x := mul_self_pos.mpr hx0
  have h2 : x * x ≤ (a.map (fun y => y * y)).sum :=
    List.single_le_sum
      (fun y hy => by
        rcases List.mem_map.mp hy with ⟨z, _, rfl⟩
        exact mul_self_nonneg z)
      _ (List.mem_map_of_mem _ hx)
  linarith

/-- Claim C4: on a length mismatch, or when either squared norm (equivalently
either Euclidean norm) vanishes, `CosineSimilarity` returns exactly `0` — no
error, and the longer vector is never truncated since the guard returns before
any elementwise work. -/
theorem claim_C4 (a b : List ℝ)
    (h : a.length ≠ b.length ∨ normSq a = 0 ∨ normSq b = 0) :
    CosineSimilarity a b = 0 := by
  unfold CosineSimilarity
  rcases h with h | h
  · rw [if_pos h]
  · by_cases hl : a.length ≠ b.length
    · rw [if_pos hl]
    · rw [if_neg hl, if_pos h]

/-- Claim C4 witness: vectors of lengths 1 and 2 score exactly `0`. -/
theorem claim_C4_witness :
    (([1] : List ℝ).length ≠ ([1, 2] : List ℝ).length) ∧
    CosineSimilarity [1] [1, 2] = 0 :=
  ⟨by decide, claim_C4 [1] [1, 2] (Or.inl (by decide))⟩

/-- Claim C8: a vector with a non-zero component has similarity exactly `1`
with itself (real-valued model of the float arithmetic). -/
theorem claim_C8 (v : List ℝ) (h : ∃ x ∈ v, x ≠ 0) :
    CosineSimilarity v v = 1 := by
  have hpos : 0 < normSq v := normSq_pos v h
  unfold CosineSimilarity
  rw [if_neg (by simp)]
  rw [if_neg (by push_neg; exact ⟨ne_of_gt hpos, ne_of_gt hpos⟩)]
  rw [Real.mul_self_sqrt (le_of_lt hpos)]
  exact div_self (ne_of_gt hpos)

/-- Claim C8 witness: the one-component vector `[1]`. -/
theorem claim_C8_witness :
    (∃ x ∈ ([1] : List ℝ), x ≠ 0) ∧ CosineSimilarity [1] [1] = 1 :=
  ⟨⟨1, by simp⟩, claim_C8 [1] ⟨1, by simp⟩⟩

/-- Claim C9: `CosineSimilarity` is commutative. -/
theorem claim_C9 (a b : List ℝ) :
    CosineSimilarity a b = CosineSimilarity b a := by
  unfold CosineSimilarity
  by_cases hl : a.length = b.length
  · rw [if_neg (not_ne_iff.mpr hl), if_neg (not_ne_iff.mpr hl.symm)]
    by_cases hz : normSq a = 0 ∨ normSq b = 0
    · rw [if_pos hz, if_pos hz.symm]
    · rw [if_neg hz, if_neg (fun hc => hz hc.symm)]
      rw [dotProduct_comm, mul_comm]
  · rw [if_pos hl, if_pos (fun hc => hl hc.symm)]

/-! ## Data model (`api/models`, restricted to what the retrieval core reads)

`models.Chunk` carries a string id and text content (ids modelled as `Nat`);
`models.Embedding` carries its chunk's id and the stored vector JSON string,
modelled by the result of parsing it back: `some v` when `json.Unmarshal`
succeeds, `none` when it fails and leaves the slice nil. -/

structure Chunk where
  id : Nat
  content : List Char
deriving DecidableEq

structure StoredEmbedding where
  chunkId : Nat
  vector : Option (List ℝ)

/-- The anonymous `ChunkWithScore` struct of `ChatAsk`. -/
structure ChunkWithScore where
  chunk : Chunk
  score : ℝ

/-! ## Ranking (`ChatAsk`, `handlers.go`)

The exchange sort
`for i { for j > i { if a[j].Score > a[i].Score { swap } } }`
translated to lists: `selectInner c l` is one inner pass starting with `a[i] = c`
over the suffix `l`; it returns the element brought into position `i` and the
suffix as the swaps leave it (each displaced current element takes the place of
the larger element that replaced it). -/

noncomputable def selectInner (c : ChunkWithScore) :
    List ChunkWithScore → ChunkWithScore × List ChunkWithScore
  | [] => (c, [])
  | x :: xs =>
    if x.score > c.score then
      ((selectInner x xs).1, c :: (selectInner x xs).2)
    else
      ((selectInner c xs).1, x :: (selectInner c xs).2)

theorem selectInner_snd_length (c : ChunkWithScore) (l : List ChunkWithScore) :
    (selectInner c l).2.length = l.length := by
  induction l generalizing c with
  | nil => rfl
  | cons x xs ih =>
    rw [selectInner]
    split
    · simp [ih]
    · simp [ih]

/-- The outer loop: after the inner pass the element in position `i` is final
and the loop recurses on the rearranged suffix. -/
noncomputable def sortScored : List ChunkWithScore → List ChunkWithScore
  | [] => []
  | c :: xs => (selectInner c xs).1 :: sortScored (selectInner c xs).2
termination_by l => l.length
decreasing_by simp only [selectInner_snd_length, List.length_cons]; omega

theorem selectInner_perm (c : ChunkWithScore) (l : List ChunkWithScore) :
    List.Perm ((selectInner c l).1 :: (selectInner c l).2) (c :: l) := by
  induction l generalizing c with
  | nil => exact List.Perm.refl _
  | cons x xs ih =>
    rw [selectInner]
    split
    · exact (List.Perm.swap c (selectInner x xs).1 (selectInner x xs).2).trans
        (List.Perm.cons c (ih x))
    · exact (List.Perm.swap x (selectInner c xs).1 (selectInner c xs).2).trans
        ((List.Perm.cons x (ih c)).trans (List.Perm.swap c x xs))


theorem selectInner_fst_ge (c : ChunkWithScore) (l : List ChunkWithScore) :
    c.score ≤ (selectInner c l).1.score := by
  induction l generalizing c with
  | nil => exact le_refl _
  | cons x xs ih =>
    rw [selectInner]
    split
    · exact le_of_lt (lt_of_lt_of_le (by assumption) (ih x))
    · exact ih c

theorem selectInner_max (c : ChunkWithScore) (l : List ChunkWithScore) :
    ∀ y ∈ (selectInner c l).2, y.score ≤ (selectInner c l).1.score := by
  induction l generalizing c with
  | nil => intro y hy; simp [selectInner] at hy
  | cons x xs ih =>
    rw [selectInner]
    split
    · intro y hy
      rcases List.mem_cons.mp hy with rfl | hy
      · exact le_of_lt (lt_of_lt_of_le (by assumption) (selectInner_fst_ge x xs))
      · exact ih x y hy
    · intro y hy
      rcases List.mem_cons.mp hy with rfl | hy
      · exact le_trans (le_of_not_lt (by assumption)) (selectInner_fst_ge c xs)
      · exact ih c y hy

theorem sortScored_perm : ∀ l : List ChunkWithScore, List.Perm (sortScored l) l
  | [] => by rw [sortScored]
  | c :: xs => by
    rw [sortScored]
    exact (List.Perm.cons (selectInner c xs).1
        (sortScored_perm (selectInner c xs).2)).trans (selectInner_perm c xs)
termination_by l => l.length
decreasing_by simp only [selectInner_snd_length, List.length_cons]; omega

theorem sortScored_sorted :
    ∀ l : List ChunkWithScore,
      List.Pairwise (fun a b => b.score ≤ a.score) (sortScored l)
  | [] => by rw [sortScored]; exact List.Pairwise.nil
  | c :: xs => by
    rw [sortScored]
    refine List.Pairwise.cons ?_ (sortScored_sorted (selectInner c xs).2)
    intro y hy
    exact selectInner_max c xs y ((sortScored_perm _).mem_iff.mp hy)
termination_by l => l.length
decreasing_by all_goals (simp only [selectInner_snd_length, List.length_cons]; omega)

/-- The top-K selection of `ChatAsk`: `topK := 6`, lowered to the candidate
count when fewer exist; the sorted list's prefix of that length. -/
noncomputable def topSelect (l : List ChunkWithScore) : List ChunkWithScore :=
  (sortScored l).take (if l.length < 6 then l.length else 6)

/-- Claim C5: the chat-ask top-K selection returns the first `min(6, n)`
entries of a descending-by-score sort of the candidates; with fewer than 6
candidates it returns all of them, fully sorted. -/
theorem claim_C5 (l : List ChunkWithScore) :
    List.Perm (sortScored l) l ∧
    List.Pairwise (fun a b => b.score ≤ a.score) (sortScored l) ∧
    topSelect l = (sortScored l).take (min 6 l.length) ∧
    (l.length < 6 → topSelect l = sortScored l) := by
  refine ⟨sortScored_perm l, sortScored_sorted l, ?_, ?_⟩
  · unfold topSelect
    congr 1
    rw [min_def]
    split <;> split <;> omega
  · intro h6
    unfold topSelect
    rw [if_pos h6]
    exact List.take_of_length_le (le_of_eq (sortScored_perm l).length_eq)

/-- Claim C5 witness: a concrete two-candidate list, fewer than 6. -/
theorem claim_C5_witness :
    topSelect [⟨⟨0, ['a']⟩, (1 : ℝ)⟩, ⟨⟨1, ['b']⟩, (2 : ℝ)⟩] =
      sortScored [⟨⟨0, ['a']⟩, (1 : ℝ)⟩, ⟨⟨1, ['b']⟩, (2 : ℝ)⟩] :=
  (claim_C5 [⟨⟨0, ['a']⟩, (1 : ℝ)⟩, ⟨⟨1, ['b']⟩, (2 : ℝ)⟩]).2.2.2 (by simp)

/-! ## Candidate loading and scoring (`ChatAsk`, `handlers.go`)

For each embedding row: parse the stored vector (`json.Unmarshal` with the
error ignored — an unparseable string leaves the slice nil, modelled by
`Option.getD` with default `[]`), score it against the query, and attach the
first chunk whose id matches (the inner loop with `break`); embeddings with no
matching chunk contribute nothing. -/

noncomputable def scoredCandidates (queryEmbedding : List ℝ) (chunks : List Chunk) :
    List StoredEmbedding → List ChunkWithScore
  | [] => []
  | e :: es =>
    match chunks.find? (fun c => c.id == e.chunkId) with
    | some c =>
      ⟨c, CosineSimilarity queryEmbedding (e.vector.getD [])⟩ ::
        scoredCandidates queryEmbedding chunks es
    | none => scoredCandidates queryEmbedding chunks es

/-- Outcome of a `ChatAsk` request.  The handler has exactly these exits after
request binding: embedding failure (HTTP 500), generation failure (HTTP 500),
or success with the answer and the per-chunk citations (modelled by their
similarity scores, the datum each citation label carries). -/
inductive ChatOutcome where
  | embedFailed
  | genFailed
  | ok (answer : String) (citations : List ℝ)

/-- The `ChatAsk` pipeline over its collaborators' results: `embedResult` is
the embedding call on the question (`none` = failure), `chunks`/`embeddings`
are the rows loaded for the course, `genResult` the text-generation call
(`none` = failure).  The second component records whether the text-generation
collaborator was invoked. -/
noncomputable def ChatAsk (embedResult : Option (List ℝ)) (chunks : List Chunk)
    (embeddings : List StoredEmbedding) (genResult : Option String) :
    ChatOutcome × Bool :=
  match embedResult with
  | none => (ChatOutcome.embedFailed, false)
  | some q =>
    let top := topSelect (scoredCandidates q chunks embeddings)
    let citations := top.map (fun sc => sc.score)
    match genResult with
    | none => (ChatOutcome.genFailed, true)
    | some answer => (ChatOutcome.ok answer citations, true)

/-! ## Ingestion (`UploadPDF`, `handlers.go`)

The per-chunk loop: persist the chunk record (ids modelled by the running
index), call the embedding provider, and on success persist the embedding row;
on failure `continue` — the chunk stays, no embedding row is written.
Persistence itself is modelled as always succeeding. -/

def ingestLoop (f : List Char → Option (List ℝ)) :
    Nat → List (List Char) → List Chunk × List StoredEmbedding
  | _, [] => ([], [])
  | i, t :: ts =>
    match f t with
    | none =>
      ((⟨i, t⟩ : Chunk) :: (ingestLoop f (i + 1) ts).1, (ingestLoop f (i + 1) ts).2)
    | some v =>
      ((⟨i, t⟩ : Chunk) :: (ingestLoop f (i + 1) ts).1,
        (⟨i, some v⟩ : StoredEmbedding) :: (ingestLoop f (i + 1) ts).2)

/-- Ingestion of a chunk list with embedding provider `f`. -/
def ingest (texts : List (List Char)) (f : List Char → Option (List ℝ)) :
    List Chunk × List StoredEmbedding :=
  ingestLoop f 0 texts

theorem ingestLoop_contents (f : List Char → Option (List ℝ)) (i : Nat)
    (ts : List (List Char)) :
    (ingestLoop f i ts).1.map (fun c => c.content) = ts := by
  induction ts generalizing i with
  | nil => rfl
  | cons t ts ih =>
    rw [ingestLoop]
    cases f t with
    | none => simp [ih]
    | some v => simp [ih]

theorem ingestLoop_chunk_id_ge (f : List Char → Option (List ℝ)) (i : Nat)
    (ts : List (List Char)) :
    ∀ c ∈ (ingestLoop f i ts).1, i ≤ c.id := by
  induction ts generalizing i with
  | nil => intro c hc; simp [ingestLoop] at hc
  | cons t ts ih =>
    intro c hc
    rw [ingestLoop] at hc
    cases hft : f t with
    | none =>
      rw [hft] at hc
      rcases List.mem_cons.mp hc with rfl | hc
      · exact le_refl _
      · exact le_trans (by omega) (ih (i + 1) c hc)
    | some v =>
      rw [hft] at hc
      rcases List.mem_cons.mp hc with rfl | hc
      · exact le_refl _
      · exact le_trans (by omega) (ih (i + 1) c hc)

theorem ingestLoop_emb_id_ge (f : List Char → Option (List ℝ)) (i : Nat)
    (ts : List (List Char)) :
    ∀ e ∈ (ingestLoop f i ts).2, i ≤ e.chunkId := by
  induction ts generalizing i with
  | nil => intro e he; simp [ingestLoop] at he
  | cons t ts ih =>
    intro e he
    rw [ingestLoop] at he
    cases hft : f t with
    | none =>
      rw [hft] at he
      exact le_trans (by omega) (ih (i + 1) e he)
    | some v =>
      rw [hft] at he
      rcases List.mem_cons.mp he with rfl | he
      · exact le_refl _
      · exact le_trans (by omega) (ih (i + 1) e he)

/-- Every persisted embedding row points at a persisted chunk. -/
theorem ingestLoop_emb_has_chunk (f : List Char → Option (List ℝ)) (i : Nat)
    (ts : List (List Char)) :
    ∀ e ∈ (ingestLoop f i ts).2, ∃ c ∈ (ingestLoop f i ts).1, c.id = e.chunkId := by
  induction ts generalizing i with
  | nil => intro e he; simp [ingestLoop] at he
  | cons t ts ih =>
    intro e he
    rw [ingestLoop] at he ⊢
    cases hft : f t with
    | none =>
      rw [hft] at he
      rcases ih (i + 1) e he with ⟨c, hc, hid⟩
      exact ⟨c, List.mem_cons_of_mem _ hc, hid⟩
    | some v =>
      rw [hft] at he
      rcases List.mem_cons.mp he with rfl | he
      · exact ⟨⟨i, t⟩, List.mem_cons_self _ _, rfl⟩
      · rcases ih (i + 1) e he with ⟨c, hc, hid⟩
        exact ⟨c, List.mem_cons_of_mem _ hc, hid⟩

/-- A chunk whose embedding call failed has no embedding row. -/
theorem ingestLoop_failed_excluded (f : List Char → Option (List ℝ)) (i : Nat)
    (ts : List (List Char)) :
    ∀ c ∈ (ingestLoop f i ts).1, f c.content = none →
      ∀ e ∈ (ingestLoop f i ts).2, e.chunkId ≠ c.id := by
  induction ts generalizing i with
  | nil => intro c hc; simp [ingestLoop] at hc
  | cons t ts ih =>
    intro c hc hfail e he
    rw [ingestLoop] at hc he
    cases hft : f t with
    | none =>
      rw [hft] at hc he
      rcases List.mem_cons.mp hc with rfl | hc
      · have := ingestLoop_emb_id_ge f (i + 1) ts e he
        simp only []
        omega
      · exact ih (i + 1) c hc hfail e he
    | some v =>
      rw [hft] at hc he
      rcases List.mem_cons.mp hc with rfl | hc
      · simp only [] at hfail
        rw [hfail] at hft
        cases hft
      · rcases List.mem_cons.mp he with rfl | he
        · have := ingestLoop_chunk_id_ge f (i + 1) ts c hc
          simp only []
          omega
        · exact ih (i + 1) c hc hfail e he

theorem ingestLoop_emb_count (f : List Char → Option (List ℝ)) (i : Nat)
    (ts : List (List Char)) :
    (ingestLoop f i ts).2.length = (ts.filter (fun t => (f t).isSome)).length := by
  induction ts generalizing i with
  | nil => rfl
  | cons t ts ih =>
    rw [ingestLoop, List.filter_cons]
    cases hft : f t with
    | none => simp [hft, ih]
    | some v => simp [hft, ih]

/-! ### Scoring lemmas and pipeline claims -/

theorem scoredCandidates_length (q : List ℝ) (cs : List Chunk)
    (es : List StoredEmbedding) (h : ∀ e ∈ es, ∃ c ∈ cs, c.id = e.chunkId) :
    (scoredCandidates q cs es).length = es.length := by
  induction es with
  | nil => rfl
  | cons e es ih =>
    have hfind : (cs.find? (fun c => c.id == e.chunkId)).isSome := by
      rw [List.find?_isSome]
      rcases h e (List.mem_cons_self _ _) with ⟨c, hc, hid⟩
      exact ⟨c, hc, by simp [hid]⟩
    cases hf : cs.find? (fun c => c.id == e.chunkId) with
    | none => rw [hf] at hfind; simp at hfind
    | some c =>
      rw [scoredCandidates, hf, List.length_cons,
        ih (fun e' he' => h e' (List.mem_cons_of_mem _ he')), List.length_cons]

theorem scoredCandidates_chunkId (q : List ℝ) (cs : List Chunk)
    (es : List StoredEmbedding) :
    ∀ sc ∈ scoredCandidates q cs es, ∃ e ∈ es, sc.chunk.id = e.chunkId := by
  induction es with
  | nil => intro sc hsc; simp [scoredCandidates] at hsc
  | cons e es ih =>
    intro sc hsc
    rw [scoredCandidates] at hsc
    cases hf : cs.find? (fun c => c.id == e.chunkId) with
    | none =>
      rw [hf] at hsc
      rcases ih sc hsc with ⟨e', he', hid⟩
      exact ⟨e', List.mem_cons_of_mem _ he', hid⟩
    | some c =>
      rw [hf] at hsc
      rcases List.mem_cons.mp hsc with rfl | hsc
      · exact ⟨e, List.mem_cons_self _ _, by simpa using List.find?_some hf⟩
      · rcases ih sc hsc with ⟨e', he', hid⟩
        exact ⟨e', List.mem_cons_of_mem _ he', hid⟩

/-- Similarity against the nil vector left by a failed parse is `0`: a length
mismatch when the query is non-empty, a zero norm when it is empty too. -/
theorem CosineSimilarity_nil_right (q : List ℝ) : CosineSimilarity q [] = 0 := by
  unfold CosineSimilarity
  cases q with
  | nil => simp [normSq, dotProduct]
  | cons x xs => rw [if_pos (by simp)]

/-- Claim C10: an embedding row whose stored vector string does not parse is
still scored — the candidate for its chunk is present with score exactly `0`,
rather than being dropped or failing the request. -/
theorem claim_C10 (q : List ℝ) (cs : List Chunk) (es : List StoredEmbedding)
    (e : StoredEmbedding) (he : e ∈ es) (hv : e.vector = none)
    (hc : ∃ c ∈ cs, c.id = e.chunkId) :
    ∃ sc ∈ scoredCandidates q cs es, sc.chunk.id = e.chunkId ∧ sc.score = 0 := by
  induction es with
  | nil => simp at he
  | cons e' es ih =>
    rcases List.mem_cons.mp he with rfl | he
    · have hfind : (cs.find? (fun c => c.id == e.chunkId)).isSome := by
        rw [List.find?_isSome]
        rcases hc with ⟨c, hcc, hid⟩
        exact ⟨c, hcc, by simp [hid]⟩
      cases hf : cs.find? (fun c => c.id == e.chunkId) with
      | none => rw [hf] at hfind; simp at hfind
      | some c =>
        rw [scoredCandidates, hf]
        refine ⟨_, List.mem_cons_self _ _, by simpa using List.find?_some hf, ?_⟩
        show CosineSimilarity q (e.vector.getD []) = 0
        rw [hv]
        exact CosineSimilarity_nil_right q
    · rcases ih he with ⟨sc, hsc, hid, hs⟩
      rw [scoredCandidates]
      cases cs.find? (fun c => c.id == e'.chunkId) with
      | none => exact ⟨sc, hsc, hid, hs⟩
      | some c => exact ⟨sc, List.mem_cons_of_mem _ hsc, hid, hs⟩

/-- Claim C10 witness: one chunk, one embedding row with an unparseable vector. -/
theorem claim_C10_witness :
    ((⟨0, none⟩ : StoredEmbedding) ∈ [(⟨0, none⟩ : StoredEmbedding)]) ∧
    ∃ sc ∈ scoredCandidates [1] [⟨0, ['a']⟩] [⟨0, none⟩],
      sc.chunk.id = (⟨0, none⟩ : StoredEmbedding).chunkId ∧ sc.score = 0 :=
  ⟨List.mem_cons_self _ _,
    claim_C10 [1] [⟨0, ['a']⟩] [⟨0, none⟩] ⟨0, none⟩ (List.mem_cons_self _ _) rfl
      ⟨⟨0, ['a']⟩, List.mem_cons_self _ _, rfl⟩⟩

/-- Claim C1 counterexample: with a successfully embedded question and no
(chunk, vector) rows at all for the course, `ChatAsk` does not abort with any
no-content error — the text-generation collaborator is invoked (flag `true`)
and the request succeeds with empty citations. -/
theorem claim_C1_counterexample :
    (ChatAsk (some [1]) [] [] (some "answer")).2 = true ∧
    (ChatAsk (some [1]) [] [] (some "answer")).1 =
      ChatOutcome.ok "answer" [] := by
  constructor <;> simp [ChatAsk, scoredCandidates, topSelect, sortScored]

/-- Claim C1 (amended): when the question embeds successfully and no candidate
pairs exist, the pipeline does not abort: the text-generation collaborator is
always called, and on its success the request returns the generated answer
with an empty citation list. -/
theorem claim_C1_amended (q : List ℝ) (chunks : List Chunk) (answer : String) :
    (∀ genResult, (ChatAsk (some q) chunks [] genResult).2 = true) ∧
    ChatAsk (some q) chunks [] (some answer) =
      (ChatOutcome.ok answer [], true) := by
  constructor
  · intro genResult
    cases genResult <;> simp [ChatAsk]
  · simp [ChatAsk, scoredCandidates, topSelect, sortScored]

/-- Claim C6: a chunk whose embedding call fails during ingestion is still
persisted (all chunk texts are stored, in order), the rest of ingestion
proceeds, and a later chat-ask scores exactly one candidate per
successfully-embedded chunk — the failed chunk appears in no scored
candidate. -/
theorem claim_C6 (texts : List (List Char)) (f : List Char → Option (List ℝ))
    (q : List ℝ) :
    ((ingest texts f).1.map (fun c => c.content) = texts) ∧
    ((scoredCandidates q (ingest texts f).1 (ingest texts f).2).length =
      (texts.filter (fun t => (f t).isSome)).length) ∧
    (∀ c ∈ (ingest texts f).1, f c.content = none →
      ∀ sc ∈ scoredCandidates q (ingest texts f).1 (ingest texts f).2,
        sc.chunk.id ≠ c.id) := by
  unfold ingest
  refine ⟨ingestLoop_contents f 0 texts, ?_, ?_⟩
  · rw [scoredCandidates_length q _ _ (ingestLoop_emb_has_chunk f 0 texts)]
    exact ingestLoop_emb_count f 0 texts
  · intro c hc hfail sc hsc
    rcases scoredCandidates_chunkId q _ _ sc hsc with ⟨e, he, hid⟩
    rw [hid]
    exact ingestLoop_failed_excluded f 0 texts c hc hfail e he

/-- Claim C6 witness: two chunks, the first one's embedding call failing. -/
theorem claim_C6_witness :
    ((⟨0, ['a']⟩ : Chunk) ∈
      (ingest [['a'], ['b']] (fun t => if t = ['a'] then none else some [1])).1) ∧
    ∀ sc ∈ scoredCandidates [1]
        (ingest [['a'], ['b']] (fun t => if t = ['a'] then none else some [1])).1
        (ingest [['a'], ['b']] (fun t => if t = ['a'] then none else some [1])).2,
      sc.chunk.id ≠ (⟨0, ['a']⟩ : Chunk).id := by
  have hmem : (⟨0, ['a']⟩ : Chunk) ∈
      (ingest [['a'], ['b']] (fun t => if t = ['a'] then none else some [1])).1 := by
    simp [ingest, ingestLoop]
  exact ⟨hmem, (claim_C6 [['a'], ['b']]
    (fun t => if t = ['a'] then none else some [1]) [1]).2.2 ⟨0, ['a']⟩ hmem rfl⟩

end Elearn
